import Mathlib

/-!
Verification development for an Enigma-machine simulator and its crib-based
code breaker (`enigma.py`, `code_breaker.py`).

Conventions of the shallow embedding:
* Python strings of letters are modelled as `List Char`; the machine alphabet
  `'ABCDEFGHIJKLMNOPQRSTUVWXYZ'` is `ALPHA`.
* Python `list.index` (which raises `ValueError` when the element is absent)
  is modelled by `idx?` returning `Option Nat`; `deque.rotate(-1)` is
  `rotLeft`, `deque.rotate(1)` is `rotRight`.
* Fallible operations (exceptions in Python) return `Option` / `Except`.
  In a few stepping helpers where the sought element is always present for
  machine states built by the constructors (labels and wirings are rotations
  of the 26-letter catalog sequences), the total `List.indexOf` / `List.headD`
  / `List.getD` stand in for Python's raising accessors; each such spot is
  noted in a comment.
* Python `int` values are `Int` (the rotor notch, stored as an int or the
  bool `False`, is `Option Int`; Python arithmetic treats `False` as `0`).
-/

/-- The 26-letter alphabet `'ABCDEFGHIJKLMNOPQRSTUVWXYZ'` (`RotorData.sequence['alpha']`,
    also the `Enigma.wiring` constant used for letter/contact conversions). -/
def ALPHA : List Char := "ABCDEFGHIJKLMNOPQRSTUVWXYZ".toList

/-- Python `str.lower()` (character-wise; agrees with Python on the ASCII
    names used by the program). -/
def pyLower (s : String) : String := ⟨s.data.map Char.toLower⟩

/-- Python `int()` on the well-formed decimal strings of the data sets
    (`'01'`–`'26'`). -/
def pyInt (s : String) : Nat := s.data.foldl (fun n c => n * 10 + (c.toNat - 48)) 0

/-- `RotorData.sequence`: catalog wiring tables, keyed by lower-case name.
    An unknown key raises `KeyError` in Python; no claim exercises that case,
    the default `[]` marks it. -/
def sequenceData (k : String) : List Char :=
  match k with
  | "alpha" => ALPHA
  | "beta" => "LEYJVCNIXWPBQMDRTAKZGFUHOS".toList
  | "gamma" => "FSOKANUERHMBTIYCWLQPZXVGJD".toList
  | "i" => "EKMFLGDQVZNTOWYHXUSPAIBRCJ".toList
  | "ii" => "AJDKSIRUXBLHWTMCQGZNPYFVOE".toList
  | "iii" => "BDFHJLCPRTXVZNYEIWGAKMUSQO".toList
  | "iv" => "ESOVPZJAYQUIRHXLNFTGKDCMWB".toList
  | "v" => "VZBRGITYUPSDNHLXAWMJQOFECK".toList
  | "a" => "EJMZALYXVBWFCRQUONTSPIKHGD".toList
  | "b" => "YRUHQSLDPXNGOKMIEBFZCWVJAT".toList
  | "c" => "FVPJIAOYEDRZXWGCTKUQSBNMHL".toList
  | _ => []

/-- `RotorData.notch`: notch positions; `beta`/`gamma` store the bool `False`
    (no notch), modelled as `none`. -/
def notchData (k : String) : Option Int :=
  match k with
  | "i" => some 17
  | "ii" => some 5
  | "iii" => some 22
  | "iv" => some 10
  | "v" => some 26
  | _ => none

/-- Python `deque.rotate(-1)`: rotate one position to the left. -/
def rotLeft (l : List Char) : List Char := l.rotate 1

/-- Python `deque.rotate()` = `deque.rotate(1)`: rotate one position to the right. -/
def rotRight (l : List Char) : List Char := l.rotate (l.length - 1)

/-- Python `list.index` / `str.index`: `none` models the `ValueError` raised
    when the element is absent. -/
def idx? (l : List Char) (c : Char) : Option Nat :=
  if c ∈ l then some (l.indexOf c) else none

/-- Python list subscription with possibly negative index (`l[-1]` is the
    last element); `none` models `IndexError`. -/
def pyGet (l : List α) (i : Int) : Option α :=
  if i < 0 then
    if i.natAbs ≤ l.length then l.get? (l.length - i.natAbs) else none
  else l.get? i.natAbs

/-- Python bool-as-int coercion: `False` used in arithmetic is `0`
    (`drum[1].notch - 1` is evaluated even when the notch is `False`). -/
def pyNotch (o : Option Int) : Int := o.getD 0

/-! ### Rotor (`enigma.py`, class `Rotor`) -/

structure Rotor where
  notch : Option Int
  rotor_type : String
  rotor_offset : Int
  rotor_wiring : List Char
  label : List Char
  initial_position : Char
  ring_setting : Nat
deriving DecidableEq, Repr

/-- `Rotor.set_rotor_offset`: bump the offset and wrap it into range; the
    source applies `if offset <= 1: offset = 26` then `if offset >= 27: offset = 1`. -/
def set_rotor_offset (off direction : Int) : Int :=
  let o := off + direction
  if o ≤ 1 then 26 else if o ≥ 27 then 1 else o

/-- The notch update of `Rotor.adjust_notch_position` as the code writes it:
    `notch -= 1; if notch < 1: notch = 26`. -/
def notch_dec_code (n : Int) : Int := if n - 1 < 1 then 26 else n - 1

/-- The same update as the spec words it: decrement by one, wrapping from 1
    back to 26. -/
def notch_dec_spec (n : Int) : Int := if n = 1 then 26 else n - 1

/-- `Rotor.adjust_notch_position`: decrement the notch (when present),
    wrapping below 1 to 26. -/
def adjust_notch_position (r : Rotor) : Rotor :=
  { r with notch := r.notch.map notch_dec_code }

/-- One iteration of the loop in `Rotor.set_rotor_to_initial_position`:
    rotate wiring and label left and bump the offset by `+1`. -/
def initial_position_step (r : Rotor) : Rotor :=
  { r with rotor_wiring := rotLeft r.rotor_wiring, label := rotLeft r.label,
           rotor_offset := set_rotor_offset r.rotor_offset 1 }

/-- `Rotor.set_rotor_to_initial_position`: the loop runs
    `label.index(initial_position)` times (evaluated once, on entry; for a
    position outside the label Python raises `ValueError`, while
    `List.indexOf` yields `label.length`; every claim uses alphabet letters). -/
def set_rotor_to_initial_position (r : Rotor) (initial_position : Char) : Rotor :=
  initial_position_step^[r.label.indexOf initial_position] r

/-- One iteration of the loop in `Rotor.set_rotor_ring_setting`: rotate
    wiring and label right, bump the offset by `-1`, adjust the notch. -/
def ring_setting_step (r : Rotor) : Rotor :=
  adjust_notch_position
    { r with rotor_wiring := rotRight r.rotor_wiring, label := rotRight r.label,
             rotor_offset := set_rotor_offset r.rotor_offset (-1) }

/-- `Rotor.set_rotor_ring_setting`: the loop runs `ring_setting - 1` times. -/
def set_rotor_ring_setting (r : Rotor) (ring_setting : Nat) : Rotor :=
  ring_setting_step^[ring_setting - 1] r

/-- The field assignments at the top of `Rotor.__init__`. -/
def rotor_base (rotor_type : String) (initial_position : Char) (ring_setting : Nat) : Rotor :=
  { notch := notchData (pyLower rotor_type)
    rotor_type := rotor_type
    rotor_offset := 1
    rotor_wiring := sequenceData (pyLower rotor_type)
    label := sequenceData "alpha"
    initial_position := initial_position
    ring_setting := ring_setting }

/-- `Rotor.__init__(rotor_type, initial_position, ring_setting)`. -/
def mkRotor (rotor_type : String) (initial_position : Char) (ring_setting : Nat) : Rotor :=
  set_rotor_ring_setting
    (set_rotor_to_initial_position (rotor_base rotor_type initial_position ring_setting)
      initial_position)
    ring_setting

/-- `Rotor.rotate_rotor()` (always called with the default direction `-1`). -/
def rotate_rotor (r : Rotor) : Rotor :=
  { r with rotor_wiring := rotLeft r.rotor_wiring, label := rotLeft r.label }

/-- `Rotor.reset_deque`: rebuild the rotor from its stored type, initial
    position and ring setting. -/
def reset_deque (r : Rotor) : Rotor :=
  let r' : Rotor :=
    { r with notch := notchData (pyLower r.rotor_type)
             rotor_offset := 1
             rotor_wiring := sequenceData (pyLower r.rotor_type)
             label := sequenceData "alpha" }
  set_rotor_ring_setting (set_rotor_to_initial_position r' r.initial_position) r.ring_setting

/-- `Rotor.encode_right_to_left`: `rotor_wiring[label.index(character)]`. -/
def encode_right_to_left (r : Rotor) (character : Char) : Option Char :=
  (idx? r.label character).bind fun i => r.rotor_wiring.get? i

/-- `Rotor.encode_left_to_right`: `label[rotor_wiring.index(character)]`. -/
def encode_left_to_right (r : Rotor) (character : Char) : Option Char :=
  (idx? r.rotor_wiring character).bind fun i => r.label.get? i

/-! ### PlugLead and Plugboard -/

structure PlugLead where
  lead_mapping : List Char
deriving DecidableEq, Repr

/-- Python `set.add` on a set modelled as a duplicate-free list. -/
def setInsert (l : List Char) (c : Char) : List Char :=
  if c ∈ l then l else l ++ [c]

/-- `PlugLead.__init__(mapping)`: the two letters are upper-cased and added to
    a set when the mapping is a 2-character alphabetic string, otherwise the
    set stays empty.  (Lean's `Char.isAlpha`/`Char.toUpper` agree with Python's
    on ASCII, the only characters the program uses.) -/
def mkPlugLead (mapping : List Char) : PlugLead :=
  match mapping with
  | [c0, c1] =>
    if c0.isAlpha && c1.isAlpha then
      ⟨setInsert (setInsert [] c0.toUpper) c1.toUpper⟩
    else ⟨[]⟩
  | _ => ⟨[]⟩

/-- `PlugLead.encode`: return the other member of the pair when the character
    is in the mapping (`lead_mapping.difference(character).pop()`; `none`
    models the `KeyError` that `pop` raises on an empty set), else the
    character unchanged. -/
def PlugLead.encode (l : PlugLead) (character : Char) : Option Char :=
  if character ∈ l.lead_mapping then (l.lead_mapping.filter (· != character)).head?
  else some character

structure Plugboard where
  plug_leads : List PlugLead
  plugs_in_use : List Char
deriving DecidableEq, Repr

/-- `Plugboard.add`: the first lead is appended unconditionally; below 10
    connected leads a lead is appended only when none of its letters is in
    use (otherwise the call silently returns with the board unchanged); at 10
    or more leads `NoPlugsAvailableException` is raised (`none`). -/
def Plugboard.add (pb : Plugboard) (plug_lead : PlugLead) : Option Plugboard :=
  if pb.plug_leads.length = 0 then
    some { plug_leads := pb.plug_leads ++ [plug_lead],
           plugs_in_use := pb.plugs_in_use ++ plug_lead.lead_mapping }
  else if pb.plug_leads.length < 10 then
    if !(plug_lead.lead_mapping.any (fun p => pb.plugs_in_use.contains p)) then
      some { plug_leads := pb.plug_leads ++ [plug_lead],
             plugs_in_use := pb.plugs_in_use ++ plug_lead.lead_mapping }
    else some pb
  else none

/-- `Plugboard.encode`: the image under the first stored lead containing the
    character, else the character unchanged. -/
def Plugboard.encode (pb : Plugboard) (character : Char) : Option Char :=
  match pb.plug_leads.find? (fun l => l.lead_mapping.contains character) with
  | some l => l.encode character
  | none => some character

/-- `Plugboard.get_plugs_settings`: the textual pairs, via `PlugLead.__str__`
    (`mapping[0] + mapping[1]` of the set in iteration order). -/
def get_plugs_settings (pb : Plugboard) : List String :=
  pb.plug_leads.map (fun l => ⟨l.lead_mapping⟩)

/-! ### Reflector -/

structure Reflector where
  reflector_sequence : List Char
  label : List Char
  r_type : String
  wiring : List PlugLead
  connected_wires : List Char
deriving DecidableEq, Repr

/-- `Reflector.add`: append a lead when the wiring is empty or none of its
    letters is connected yet (silently skipped otherwise). -/
def Reflector.add (R : Reflector) (plug_lead : PlugLead) : Reflector :=
  if R.wiring.length = 0 then
    { R with wiring := R.wiring ++ [plug_lead],
             connected_wires := R.connected_wires ++ plug_lead.lead_mapping }
  else if !(plug_lead.lead_mapping.any (fun p => R.connected_wires.contains p)) then
    { R with wiring := R.wiring ++ [plug_lead],
             connected_wires := R.connected_wires ++ plug_lead.lead_mapping }
  else R

/-- `Reflector.get_wiring_pairs`: scan positions `0 .. 24` of the label and
    pair each not-yet-connected letter with the reflector-sequence letter at
    the same position.  (`getD` stands for the in-range subscripts `label[i]`,
    `reflector_sequence[i]`.) -/
def get_wiring_pairs (R : Reflector) : List (List Char) :=
  (List.range (R.label.length - 1)).foldl
    (fun wiring i =>
      let c := R.label.getD i ' '
      if wiring.any (fun l => l.contains c) then wiring
      else wiring ++ [[c, R.reflector_sequence.getD i ' ']])
    []

/-- `Reflector.wire_reflector`: add a `PlugLead` for each wiring pair. -/
def wire_reflector (R : Reflector) (wiring : List (List Char)) : Reflector :=
  wiring.foldl (fun R w => R.add (mkPlugLead w)) R

/-- The field assignments at the top of `Reflector.__init__`. -/
def Reflector.base (reflector_type : String) : Reflector :=
  { reflector_sequence := sequenceData (pyLower reflector_type)
    label := sequenceData "alpha"
    r_type := reflector_type
    wiring := []
    connected_wires := [] }

/-- `Reflector.__init__(reflector_type)` with the default `wiring=None`:
    wire from the catalog pairs. -/
def mkReflector (reflector_type : String) : Reflector :=
  let R := Reflector.base reflector_type
  wire_reflector R (get_wiring_pairs R)

/-- `Reflector.__init__(reflector_type, wiring)` with explicit wiring pairs. -/
def mkReflectorWith (reflector_type : String) (wiring : List (List Char)) : Reflector :=
  wire_reflector (Reflector.base reflector_type) wiring

/-- `Reflector.encode`: for a connected character, the **index** (in `label`)
    of its partner (`Sum.inl`); for an unconnected character the raw
    character itself is returned (`Sum.inr`), which the caller would then use
    as a list index — a `TypeError` in Python.  `none` models an exception
    inside the lookup. -/
def Reflector.encode (R : Reflector) (character : Char) : Option (Nat ⊕ Char) :=
  match R.wiring.find? (fun l => l.lead_mapping.contains character) with
  | some l => (l.encode character).bind fun ch => (idx? R.label ch).map Sum.inl
  | none => some (Sum.inr character)

/-- `Reflector.get_wiring`: textual pairs of the wiring. -/
def get_wiring (R : Reflector) : List String :=
  R.wiring.map (fun l => ⟨l.lead_mapping⟩)

/-! ### Enigma (`enigma.py`, class `Enigma`) -/

inductive EnigmaError where
  | missingRotors   -- MissingRotors
  | drumFull        -- EnigmaDrumFull
  | runtimeError    -- any other Python exception escaping a call
  | indexError      -- IndexError from a list subscript
deriving DecidableEq, Repr

structure EnigmaState where
  plugboard : Plugboard
  drum : List Rotor
  reflector : Reflector
deriving DecidableEq, Repr

/-- `Enigma.add_rotor`: refuse (raise `EnigmaDrumFull`, `none`) when the drum
    already holds more than 3 rotors, else append. -/
def add_rotor (drum : List Rotor) (rotor : Rotor) : Option (List Rotor) :=
  if drum.length > 3 then none else some (drum ++ [rotor])

/-- The test `drum[k].notch == ALPHA.index(drum[k].label[0])` guarded by
    `type(notch) is int`, used in the stepping rules.  (`headD`/`indexOf`
    stand for the raising `label[0]` / `str.index`; machine labels are
    26-letter rotations of the alphabet.) -/
def notchAtWindow (r : Rotor) : Bool :=
  match r.notch with
  | some n => decide (n = Int.ofNat (ALPHA.indexOf (r.label.headD ' ')))
  | none => false

/-- The helper flag computed before the encoding loop of
    `Enigma.encode_sequence`: true when the third rotor's notch equals
    `ALPHA.index(drum[2].label[2]) - 1`. -/
def initialThirdFlag (r2 : Rotor) : Bool :=
  match r2.notch with
  | some n => decide (n = Int.ofNat (ALPHA.indexOf (r2.label.getD 2 ' ')) - 1)
  | none => false

/-- `drum[1].set_rotor_offset(1)` after a middle-rotor rotation. -/
def rotorOffsetBump (r : Rotor) : Rotor :=
  { r with rotor_offset := set_rotor_offset r.rotor_offset 1 }

/-- The stepping rules executed at the top of the per-letter loop of
    `Enigma.encode_sequence` (source lines 35–46), acting on
    `drum[0], drum[1], drum[2]` and the `third_notch_rotation` flag. -/
def stepPhase (r0 r1 r2 : Rotor) (third : Bool) : Rotor × Rotor × Rotor × Bool :=
  let a0 := rotate_rotor r0
  let fire0 := notchAtWindow a0
  let b1 := if fire0 then rotorOffsetBump (rotate_rotor r1) else r1
  let t1 := if fire0 then true else third
  let fire1 := a0.notch.isSome &&
    decide (pyNotch b1.notch - 1 = Int.ofNat (ALPHA.indexOf (b1.label.headD ' ')))
  let c1 := if fire1 then rotorOffsetBump (rotate_rotor b1) else b1
  let fire2 := notchAtWindow c1 && t1
  let d2 := if fire2 then rotate_rotor r2 else r2
  let t2 := if fire2 then false else t1
  (a0, c1, d2, t2)

/-- One right-to-left pass through the drum:
    `contact = drum[k].label.index(drum[k].rotor_wiring[contact])` for
    `k = 0 .. len(drum)-1`. -/
def forward_pass : List Rotor → Nat → Option Nat
  | [], contact => some contact
  | r :: rs, contact =>
    ((r.rotor_wiring.get? contact).bind fun ch => idx? r.label ch).bind (forward_pass rs)

/-- One left-to-right pass through the drum:
    `contact = drum[k].rotor_wiring.index(drum[k].label[contact])` for
    `k = len(drum)-1 .. 0`; structurally, the tail is traversed first and the
    head rotor last. -/
def backward_pass : List Rotor → Nat → Option Nat
  | [], contact => some contact
  | r :: rs, contact =>
    (backward_pass rs contact).bind fun c2 =>
      (r.label.get? c2).bind fun ch => idx? r.rotor_wiring ch

/-- `contact = reflector.encode(ALPHA[contact])`: convert the contact to its
    letter, reflect, and use the result as the next contact.  A raw character
    coming back (`Sum.inr`) would be used as a list index — `TypeError`,
    modelled by `none`. -/
def reflect_contact (R : Reflector) (contact : Nat) : Option Nat :=
  (ALPHA.get? contact).bind fun ch =>
    (R.encode ch).bind fun o =>
      match o with
      | Sum.inl n => some n
      | Sum.inr _ => none

/-- The per-letter encoding pipeline of `Enigma.encode_sequence`
    (source lines 48–59): plugboard, right-to-left pass, reflector,
    left-to-right pass, plugboard. -/
def encode_char (pb : Plugboard) (drum : List Rotor) (R : Reflector) (letter : Char) :
    Option Char := do
  let pc ← pb.encode letter
  let c0 ← idx? ALPHA pc
  let c1 ← forward_pass drum c0
  let c2 ← reflect_contact R c1
  let c3 ← backward_pass drum c2
  let oc ← ALPHA.get? c3
  pb.encode oc

/-- The per-letter loop of `Enigma.encode_sequence`: step the rotors, encode
    the letter, bump `drum[0]`'s offset, and continue with the next letter. -/
def encode_loop (pb : Plugboard) (R : Reflector) (rest : List Rotor) :
    Rotor → Rotor → Rotor → Bool → List Char → List Char →
    Except EnigmaError (List Char × Rotor × Rotor × Rotor)
  | r0, r1, r2, _, acc, [] => .ok (acc, r0, r1, r2)
  | r0, r1, r2, third, acc, letter :: rest_letters =>
    let st := stepPhase r0 r1 r2 third
    match encode_char pb (st.1 :: st.2.1 :: st.2.2.1 :: rest) R letter with
    | some c =>
      encode_loop pb R rest (rotorOffsetBump st.1) st.2.1 st.2.2.1 st.2.2.2
        (acc ++ [c]) rest_letters
    | none => .error .runtimeError

/-- `Enigma.encode_sequence`: raise `MissingRotors` below 3 rotors, run the
    per-letter loop, then reset every rotor of the drum (`reset_deque`). -/
def encode_sequence (m : EnigmaState) (a_string : List Char) :
    Except EnigmaError (List Char × EnigmaState) :=
  match m.drum with
  | r0 :: r1 :: r2 :: rest =>
    match encode_loop m.plugboard m.reflector rest r0 r1 r2 (initialThirdFlag r2) [] a_string with
    | .ok (acc, r0', r1', r2') =>
      .ok (acc, { m with drum := (r0' :: r1' :: r2' :: rest).map reset_deque })
    | .error e => .error e
  | _ => .error .missingRotors

/-! ### CodeBreaker (`code_breaker.py`): the pieces reached by `encode_part3` -/

/-- `CodeBreaker.setup_rotors`: build the drum rotors in reverse order of the
    configured list (`Rotor(rotors[i], starting_positions[i],
    int(ring_settings[i]))` for `i = len-1 .. 0`).  `getD`/`toNat?.getD 0`
    stand for the in-range subscripts and `int()` on well-formed data. -/
def setup_rotors (rotors : List String) (positions : List Char) (rings : List String) :
    List Rotor :=
  ((List.range rotors.length).reverse).map fun i =>
    mkRotor (rotors.getD i "") (positions.getD i ' ') (pyInt (rings.getD i ""))

/-- `CodeBreaker.setup_enigma`: a fresh `Enigma` with the plugboard, the
    rotors added one by one through `add_rotor` (whose `EnigmaDrumFull` is
    propagated as `none`), and the reflector. -/
def setup_enigma (pb : Plugboard) (R : Reflector) (rotors : List String)
    (positions : List Char) (rings : List String) : Option EnigmaState :=
  ((setup_rotors rotors positions rings).foldlM add_rotor []).map
    fun drum => { plugboard := pb, drum := drum, reflector := R }

/-- The restricted ring-setting catalog of `get_r3_combination`. -/
def r3RingSettings : List String := ["02", "04", "06", "08", "20", "22", "24", "26"]

/-- `product(ring_settings, repeat=3)` as lists, in `itertools` order. -/
def possibleRingSettingsList : List (List String) :=
  r3RingSettings.bind fun a => r3RingSettings.bind fun b =>
    r3RingSettings.map fun c => [a, b, c]

/-- The restricted rotor-type catalog of `get_r3_combination`. -/
def r3RotorTypes : List String := ["II", "IV", "Beta", "Gamma"]

/-- `product(['II','IV','Beta','Gamma'], repeat=3)` as lists. -/
def possibleRotorsList : List (List String) :=
  r3RotorTypes.bind fun a => r3RotorTypes.bind fun b =>
    r3RotorTypes.map fun c => [a, b, c]

/-- The reflector-type list `['a','b','c']` of `CodeBreaker.__init__`. -/
def reflectorsList : List String := ["a", "b", "c"]

/-- `CodeBreaker.get_r3_combination`: the product
    ring-settings × rotor-types × reflectors, in `itertools.product` order. -/
def r3Combinations : List (List String × List String × String) :=
  possibleRingSettingsList.bind fun rs => possibleRotorsList.bind fun rot =>
    reflectorsList.map fun rf => (rs, rot, rf)

/-- A single quote character, used by Python's `repr` of a string list. -/
def pyQuote : String := ⟨[Char.ofNat 39]⟩

/-- Python `repr` of a list of strings, as interpolated by the f-strings of
    `encode_part3` (`"['II', 'IV', 'Beta']"`). -/
def pyReprStrList (l : List String) : String :=
  "[" ++ String.intercalate ", " (l.map fun s => pyQuote ++ s ++ pyQuote) ++ "]"

/-- Python's `crib in cypher` on strings: contiguous-substring containment. -/
def pyInStr (crib cypher : List Char) : Bool := decide (crib <:+: cypher)

/-- The result string built in the crib-found branch of `encode_part3`. -/
def formatPart3 (cypher : List Char) (rtype : String) (rotors rings : List String)
    (plugs : List String) : String :=
  "Message: " ++ String.mk cypher ++ " \nReflector: " ++ rtype ++
    " \nRotors: " ++ pyReprStrList rotors ++ " \nRing settings: " ++ pyReprStrList rings ++
    "\nPlugs settings: " ++ pyReprStrList plugs

/-- The `while` loop of `CodeBreaker.encode_part3`, at loop counter `i`,
    over the precomputed candidate list `r3` (= `self.r3_combinations`):
    encode the full code with the current engine; on a crib hit build the
    result from `r3_combinations[i-1]` (Python subscription, negative index
    allowed) and stop — unless the `i > len` guard then overwrites it with
    `'Crib not found'`; on a miss, take `r3_combinations[i]` (an `IndexError`
    once `i` reaches the end), rebuild reflector and engine, and continue. -/
def part3_loop (code crib : List Char)
    (r3 : List (List String × List String × String)) (positions : List Char)
    (pb : Plugboard) (R : Reflector) (eng : EnigmaState) (i : Nat) :
    Except EnigmaError String :=
  match encode_sequence eng code with
  | .error e => .error e
  | .ok (cypher, _) =>
    if pyInStr crib cypher then
      match pyGet r3 ((i : Int) - 1) with
      | none => .error .indexError
      | some combo =>
        if i + 1 > r3.length then .ok "Crib not found"
        else .ok (formatPart3 cypher R.r_type combo.2.1 combo.1 (get_plugs_settings pb))
    else
      match h : r3.get? i with
      | none => .error .indexError
      | some combo =>
        let R' := mkReflector combo.2.2
        match setup_enigma pb R' combo.2.1 positions combo.1 with
        | none => .error .drumFull
        | some eng' =>
          if i + 1 > r3.length then .ok "Crib not found"
          else part3_loop code crib r3 positions pb R' eng' (i + 1)
termination_by r3.length + 1 - i
decreasing_by
  have hi : i < r3.length := by
    have := List.get?_eq_some.mp h
    exact this.choose
  omega

/-! ### Well-formedness predicates and claim-specific instances -/

deriving instance DecidableEq for Except

/-- A rotor whose wiring and label are rearrangements of the alphabet — true
    of every rotor built by `mkRotor` from a catalog type and preserved by
    stepping, since all the construction and stepping moves are rotations. -/
def RotorWF (r : Rotor) : Prop := r.rotor_wiring.Perm ALPHA ∧ r.label.Perm ALPHA

/-- The rotor-type names accepted by the catalog (`RotorData`), compared
    case-insensitively as the constructor does. -/
def validRotorType (t : String) : Prop :=
  pyLower t ∈ (["beta", "gamma", "i", "ii", "iii", "iv", "v"] : List String)

instance : DecidablePred validRotorType := fun t =>
  inferInstanceAs (Decidable (_ ∈ _))

/-- A plugboard whose stored leads are proper: each holds two distinct
    alphabet letters and no letter occurs in two leads — the state reached by
    successful `Plugboard.add` calls on valid leads. -/
def PlugboardWF (pb : Plugboard) : Prop :=
  (∀ l ∈ pb.plug_leads, ∃ a b, a ≠ b ∧ a ∈ ALPHA ∧ b ∈ ALPHA ∧ l.lead_mapping = [a, b]) ∧
  List.Pairwise (fun l1 l2 => ∀ x ∈ l1.lead_mapping, x ∉ l2.lead_mapping) pb.plug_leads

/-- A rotor state reachable from construction by stepping: some catalog
    rotor, at some initial letter and ring setting, advanced `n` times. -/
def ReachableRotor (r : Rotor) : Prop :=
  ∃ t p k n, validRotorType t ∧ p ∈ ALPHA ∧ r = rotate_rotor^[n] (mkRotor t p k)

/-- One application of the reflector as the spec reads it: encode, then
    convert the returned alphabet index back to its letter. -/
def reflOnce (R : Reflector) (character : Char) : Option Char :=
  (R.encode character).bind fun o =>
    match o with
    | Sum.inl i => ALPHA.get? i
    | Sum.inr _ => none

/-- The index-level reflector map succeeds below 26 and is involutive there:
    the property of `reflect_contact` that the full-machine reciprocity rests
    on. -/
def ReflectorOK (R : Reflector) : Prop :=
  ∀ i < 26, ∃ j, j < 26 ∧ reflect_contact R i = some j ∧ reflect_contact R j = some i

/-- Executable form of `ReflectorOK`, for the finite catalog checks. -/
def reflectorCheck (R : Reflector) : Bool :=
  (List.range 26).all fun i =>
    match reflect_contact R i with
    | some j => decide (j < 26) && (reflect_contact R j == some i)
    | none => false

/-- The rotors of the stepping-anomaly scenario (§8 of the spec): rotor I in
    slot 0 at `P` (its notch fires on the 2nd character), rotor III in slot 1
    at `U` (one place before its turnover `V`), rotor II in slot 2 at `A`,
    all with ring setting 1. -/
def c3r0 : Rotor := mkRotor "I" 'P' 1

def c3r1 : Rotor := mkRotor "III" 'U' 1

def c3r2 : Rotor := mkRotor "II" 'A' 1

/-- Rotor positions after the stepping block of the 1st character of
    `encode_sequence` on the scenario machine. -/
def c3state1 : Rotor × Rotor × Rotor × Bool :=
  stepPhase c3r0 c3r1 c3r2 (initialThirdFlag c3r2)

/-- ... after the 2nd character (the rightmost rotor's offset bump between
    characters, applied by the loop, only touches `rotor_offset`). -/
def c3state2 : Rotor × Rotor × Rotor × Bool :=
  stepPhase (rotorOffsetBump c3state1.1) c3state1.2.1 c3state1.2.2.1 c3state1.2.2.2

/-- ... after the 3rd character. -/
def c3state3 : Rotor × Rotor × Rotor × Bool :=
  stepPhase (rotorOffsetBump c3state2.1) c3state2.2.1 c3state2.2.2.1 c3state2.2.2.2

/-- A freshly configured machine used to instantiate the reciprocity and
    reset theorems: rotors I, II, III at `A`, ring setting 1, no plug leads,
    reflector B. -/
def freshMachine : EnigmaState :=
  { plugboard := ⟨[], []⟩
    drum := [mkRotor "I" 'A' 1, mkRotor "II" 'A' 1, mkRotor "III" 'A' 1]
    reflector := mkReflector "B" }

/-- A plugboard with ten connected leads (the capacity of the reference
    implementation). -/
def fullPlugboard : Plugboard :=
  { plug_leads := [mkPlugLead ['A','B'], mkPlugLead ['C','D'], mkPlugLead ['E','F'],
      mkPlugLead ['G','H'], mkPlugLead ['I','J'], mkPlugLead ['K','L'],
      mkPlugLead ['M','N'], mkPlugLead ['O','P'], mkPlugLead ['Q','R'],
      mkPlugLead ['S','T']]
    plugs_in_use := "ABCDEFGHIJKLMNOPQRST".toList }

/-- The `CodeBreaker` state for a part-3 search (rotors, reflector and ring
    settings unknown, so defaulted to I/II/III, B, 01/01/01) on the failing
    input: empty ciphertext, crib `'X'`, starting positions E/M/Y, empty
    plugboard. -/
def c5_plugboard : Plugboard := ⟨[], []⟩

def c5_positions : List Char := ['E', 'M', 'Y']

def c5_reflector : Reflector := mkReflector "b"

/-- The engine built by `CodeBreaker.__init__` (via `setup_enigma`) before
    `encode_part3` starts; the fallback branch is unreachable because adding
    three rotors to an empty drum succeeds. -/
def c5_engine : EnigmaState :=
  match setup_enigma c5_plugboard c5_reflector ["I", "II", "III"] c5_positions
      ["01", "01", "01"] with
  | some e => e
  | none => { plugboard := c5_plugboard, drum := [], reflector := c5_reflector }

/-- A machine with an empty drum (no `add_rotor` call yet). -/
def emptyDrumMachine : EnigmaState :=
  { plugboard := ⟨[], []⟩, drum := [], reflector := mkReflector "B" }

/-- A drum already holding four rotors. -/
def fourRotorDrum : List Rotor :=
  [mkRotor "Beta" 'A' 1, mkRotor "I" 'A' 1, mkRotor "II" 'A' 1, mkRotor "III" 'A' 1]

/-! ### Theorems -/

theorem alpha_nodup : ALPHA.Nodup := by decide

theorem alpha_length : ALPHA.length = 26 := rfl

/-- C2: for every `Reflector` constructed from a catalog type (`A`, `B` or
    `C`, either case) and every alphabet letter `x`, encoding `x`, converting
    the returned index back to its letter, and encoding again recovers `x`;
    and no letter is mapped to itself by a single application. -/
theorem c2_reflector_involution :
    ∀ t ∈ (["a", "b", "c", "A", "B", "C"] : List String), ∀ x ∈ ALPHA,
      reflOnce (mkReflector t) x ≠ some x ∧
      (reflOnce (mkReflector t) x).bind (reflOnce (mkReflector t)) = some x := by
  decide

/-- Witness for C2 at reflector type `"c"` and letter `A`. -/
theorem c2_reflector_involution_witness :
    reflOnce (mkReflector "c") 'A' ≠ some 'A' ∧
    (reflOnce (mkReflector "c") 'A').bind (reflOnce (mkReflector "c")) = some 'A' :=
  c2_reflector_involution "c" (by decide) 'A' (by decide)

/-- C3 counterexample: in the scenario of the claim (rotor III in the middle
    slot, rightmost rotor's notch firing on the 2nd character), the middle
    rotor shows `U` after the 1st character, `W` already after the 2nd
    character (it stepped **twice** while that character was processed), and
    still `W` after the 3rd — it does **not** advance on the 3rd character,
    contrary to the claim. -/
theorem c3_counterexample :
    c3state1.2.1.label.head? = some 'U' ∧
    c3state1.1.label.head? = some 'Q' ∧
    c3state2.1.label.head? = some 'R' ∧
    c3state2.2.1.label.head? = some 'W' ∧
    c3state3.2.1.label.head? = some 'W' := by
  decide

/-- C3 amended: in that scenario the double step is compressed into the 2nd
    character: the middle rotor advances twice while the 2nd character is
    processed (carry from rotor 0, then its own notch rule), the leftmost
    rotor advances on that same character, and neither advances on the
    3rd character. -/
theorem c3_double_step_compressed :
    c3state1.2.1.label.head? = some 'U' ∧
    c3state1.2.2.1.label.head? = some 'A' ∧
    c3state2.2.1.label.head? = some 'W' ∧
    c3state2.2.2.1.label.head? = some 'B' ∧
    c3state3.2.1.label.head? = some 'W' ∧
    c3state3.2.2.1.label.head? = some 'B' := by
  decide

/-- C6 counterexample: on a board with `A–B` connected, adding `A–C` (a lead
    whose letter `A` is already in use, capacity not reached) neither inserts
    nor raises: the call returns normally with the plugboard unchanged. -/
theorem c6_counterexample :
    (Plugboard.add ⟨[], []⟩ (mkPlugLead ['A', 'B'])).bind
        (fun pb => pb.add (mkPlugLead ['A', 'C'])) =
      some ⟨[mkPlugLead ['A', 'B']], ['A', 'B']⟩ := by
  decide

/-- C6 amended: `add` inserts the lead iff none of its letters is already in
    use and fewer than 10 leads are connected (the first lead is inserted
    unconditionally); with 10 or more leads connected it raises the capacity
    error; an overlapping lead below capacity is **silently ignored**, the
    call returning normally with the plugboard unchanged. -/
theorem c6_add_semantics (pb : Plugboard) (l : PlugLead) :
    (pb.plug_leads.length = 0 →
      pb.add l = some ⟨pb.plug_leads ++ [l], pb.plugs_in_use ++ l.lead_mapping⟩) ∧
    (0 < pb.plug_leads.length → pb.plug_leads.length < 10 →
      (∀ c ∈ l.lead_mapping, c ∉ pb.plugs_in_use) →
      pb.add l = some ⟨pb.plug_leads ++ [l], pb.plugs_in_use ++ l.lead_mapping⟩) ∧
    (0 < pb.plug_leads.length → pb.plug_leads.length < 10 →
      (∃ c ∈ l.lead_mapping, c ∈ pb.plugs_in_use) →
      pb.add l = some pb) ∧
    (10 ≤ pb.plug_leads.length → pb.add l = none) := by
  refine ⟨fun h0 => ?_, fun h1 h2 hdisj => ?_, fun h1 h2 hover => ?_, fun h10 => ?_⟩
  · simp [Plugboard.add, h0]
  · have h0 : ¬ pb.plug_leads.length = 0 := by omega
    simp [Plugboard.add, h0, h2]
    exact fun x hx hmem => absurd hmem (hdisj x hx)
  · have h0 : ¬ pb.plug_leads.length = 0 := by omega
    obtain ⟨x, hx, hx2⟩ := hover
    simp [Plugboard.add, h0, h2]
    exact fun hall => absurd hx2 (hall x hx)
  · have h0 : ¬ pb.plug_leads.length = 0 := by omega
    have h2 : ¬ pb.plug_leads.length < 10 := by omega
    simp [Plugboard.add, h0, h2]

/-- Witness for C6 amended: the first insertion on an empty board, and the
    capacity error on a board with ten leads. -/
theorem c6_add_semantics_witness :
    Plugboard.add ⟨[], []⟩ (mkPlugLead ['A', 'B']) =
      some ⟨[] ++ [mkPlugLead ['A', 'B']], [] ++ (mkPlugLead ['A', 'B']).lead_mapping⟩ ∧
    Plugboard.add fullPlugboard (mkPlugLead ['U', 'V']) = none :=
  ⟨(c6_add_semantics ⟨[], []⟩ (mkPlugLead ['A', 'B'])).1 rfl,
   (c6_add_semantics fullPlugboard (mkPlugLead ['U', 'V'])).2.2.2 (by decide)⟩

/-- C8 counterexample: the identical-letter lead `'AA'` passes the
    constructor's validation and is **not** an empty no-op mapping: it stores
    the singleton `{A}`, and encoding `'A'` through it raises (`set().pop()`
    on an empty set) instead of returning `'A'`. -/
theorem c8_counterexample :
    mkPlugLead ['A', 'A'] ≠ (⟨[]⟩ : PlugLead) ∧
    (mkPlugLead ['A', 'A']).encode 'A' = none := by
  decide

/-- C8 amended: a lead string of the wrong length or with a non-alphabetic
    character yields an empty mapping that encodes every character to itself
    without error; but a two-letter alphabetic lead whose letters coincide
    (up to case) yields a singleton mapping, and encoding that letter
    raises. -/
theorem c8_invalid_lead_semantics (mapping : List Char) :
    (¬ (mapping.length = 2 ∧ ∀ c ∈ mapping, c.isAlpha) →
      mkPlugLead mapping = ⟨[]⟩ ∧ ∀ c, (mkPlugLead mapping).encode c = some c) ∧
    (∀ a b, mapping = [a, b] → a.isAlpha → b.isAlpha → a.toUpper = b.toUpper →
      mkPlugLead mapping = ⟨[a.toUpper]⟩ ∧ (mkPlugLead mapping).encode a.toUpper = none) := by
  constructor
  · intro hbad
    have hempty : mkPlugLead mapping = ⟨[]⟩ := by
      match mapping with
      | [] => rfl
      | [c0] => rfl
      | c0 :: c1 :: c2 :: rest => rfl
      | [c0, c1] =>
        have : ¬ (c0.isAlpha ∧ c1.isAlpha) := by
          intro ⟨ha, hb⟩
          exact hbad ⟨rfl, by intro c hc; rcases hc with hc | hc <;> simp_all⟩
        have hb : (c0.isAlpha && c1.isAlpha) = false := by
          rw [Bool.eq_false_iff]
          intro hc
          simp only [Bool.and_eq_true] at hc
          exact this hc
        simp [mkPlugLead, hb]
    refine ⟨hempty, fun c => ?_⟩
    rw [hempty]
    simp [PlugLead.encode]
  · intro a b hm ha hb hcase
    subst hm
    have hins : mkPlugLead [a, b] = ⟨[a.toUpper]⟩ := by
      simp [mkPlugLead, ha, hb, setInsert, ← hcase]
    refine ⟨hins, ?_⟩
    rw [hins]
    simp [PlugLead.encode]

/-- Witness for C8 amended at the non-alphabetic lead `'A1'` and the
    identical-letter lead `'Aa'`. -/
theorem c8_invalid_lead_semantics_witness :
    (mkPlugLead ['A', '1'] = ⟨[]⟩ ∧ (mkPlugLead ['A', '1']).encode 'Q' = some 'Q') ∧
    (mkPlugLead ['A', 'a'] = ⟨['A']⟩ ∧ (mkPlugLead ['A', 'a']).encode 'A' = none) :=
  ⟨⟨((c8_invalid_lead_semantics ['A', '1']).1 (by decide)).1,
    ((c8_invalid_lead_semantics ['A', '1']).1 (by decide)).2 'Q'⟩,
   (c8_invalid_lead_semantics ['A', 'a']).2 'A' 'a' rfl (by decide) (by decide) (by decide)⟩

/-- `encode_loop` can only fail with `runtimeError` (an exception escaping
    the per-letter pipeline), never with `missingRotors`. -/
theorem encode_loop_error_runtime (pb : Plugboard) (R : Reflector) (rest : List Rotor) :
    ∀ (s : List Char) (r0 r1 r2 : Rotor) (third : Bool) (acc : List Char) (e : EnigmaError),
      encode_loop pb R rest r0 r1 r2 third acc s = .error e → e = .runtimeError := by
  intro s
  induction s with
  | nil => intro r0 r1 r2 third acc e h; simp [encode_loop] at h
  | cons c cs ih =>
    intro r0 r1 r2 third acc e h
    rw [encode_loop] at h
    cases hm : encode_char pb
        ((stepPhase r0 r1 r2 third).1 :: (stepPhase r0 r1 r2 third).2.1 ::
          (stepPhase r0 r1 r2 third).2.2.1 :: rest) R c with
    | none => rw [hm] at h; injection h with h2; exact h2.symm
    | some c' => rw [hm] at h; exact ih _ _ _ _ _ _ h

/-- C7: `encode_sequence` raises `MissingRotors` exactly when fewer than 3
    rotors are in the drum, and `add_rotor` raises `EnigmaDrumFull` exactly
    when a 5th rotor would be added, so a drum reached through `add_rotor`
    never exceeds 4 rotors. -/
theorem c7_rotor_count_errors :
    (∀ (m : EnigmaState) (s : List Char),
        encode_sequence m s = .error .missingRotors ↔ m.drum.length < 3) ∧
    (∀ (drum : List Rotor) (r : Rotor), drum.length ≤ 4 →
        (add_rotor drum r = none ↔ drum.length = 4) ∧
        ∀ drum', add_rotor drum r = some drum' → drum'.length ≤ 4) := by
  constructor
  · intro m s
    obtain ⟨pb, drum, R⟩ := m
    rcases drum with _ | ⟨a, _ | ⟨b, _ | ⟨c, rest⟩⟩⟩
    · simp [encode_sequence]
    · simp [encode_sequence]
    · simp [encode_sequence]
    · simp only [encode_sequence]
      constructor
      · intro h
        split at h
        · exact absurd h (by simp)
        · rename_i e he
          have := encode_loop_error_runtime pb R rest s a b c (initialThirdFlag c) [] e he
          subst this
          exact absurd h (by simp)
      · intro h; simp at h; omega
  · intro drum r hle
    by_cases hgt : drum.length > 3
    · refine ⟨?_, ?_⟩
      · simp only [add_rotor, if_pos hgt]
        constructor
        · intro _; omega
        · intro _; trivial
      · intro d' h; simp [add_rotor, hgt] at h
    · refine ⟨?_, ?_⟩
      · simp only [add_rotor, if_neg hgt]
        constructor
        · intro h; exact absurd h (by simp)
        · intro h; omega
      · intro d' h
        simp only [add_rotor, if_neg hgt, Option.some.injEq] at h
        have hlen : d'.length = drum.length + 1 := by rw [← h]; simp
        omega

/-- Witness for C7: encoding on an empty drum reports `MissingRotors`, and a
    5th rotor is refused. -/
theorem c7_rotor_count_errors_witness :
    encode_sequence emptyDrumMachine ['A'] = .error .missingRotors ∧
    add_rotor fourRotorDrum (mkRotor "IV" 'A' 1) = none :=
  ⟨(c7_rotor_count_errors.1 emptyDrumMachine ['A']).mpr (by decide),
   ((c7_rotor_count_errors.2 fourRotorDrum (mkRotor "IV" 'A' 1) (by decide)).1).mpr (by decide)⟩

/-- A valid rotor type's wiring table is a rearrangement of the alphabet. -/
theorem perm_alpha_of_valid (t : String) (ht : validRotorType t) :
    (sequenceData (pyLower t)).Perm ALPHA := by
  simp only [validRotorType, List.mem_cons, List.not_mem_nil, or_false] at ht
  rcases ht with h | h | h | h | h | h | h <;> rw [h] <;> decide

/-- `rotate_rotor` preserves well-formedness (both sequences just rotate). -/
theorem rotor_wf_rotate (r : Rotor) (h : RotorWF r) : RotorWF (rotate_rotor r) :=
  ⟨(List.rotate_perm _ _).trans h.1, (List.rotate_perm _ _).trans h.2⟩

/-- `initial_position_step` preserves well-formedness. -/
theorem rotor_wf_ips (r : Rotor) (h : RotorWF r) : RotorWF (initial_position_step r) :=
  ⟨(List.rotate_perm _ _).trans h.1, (List.rotate_perm _ _).trans h.2⟩

/-- `ring_setting_step` preserves well-formedness. -/
theorem rotor_wf_rss (r : Rotor) (h : RotorWF r) : RotorWF (ring_setting_step r) :=
  ⟨(List.rotate_perm _ _).trans h.1, (List.rotate_perm _ _).trans h.2⟩

/-- Iterating a well-formedness-preserving rotor transformation preserves
    well-formedness. -/
theorem rotor_wf_iterate {f : Rotor → Rotor} (hf : ∀ r, RotorWF r → RotorWF (f r)) :
    ∀ (n : Nat) (r : Rotor), RotorWF r → RotorWF (f^[n] r) := by
  intro n
  induction n with
  | zero => intro r hr; simpa using hr
  | succ n ih =>
    intro r hr
    rw [Function.iterate_succ_apply]
    exact ih _ (hf _ hr)

/-- Every rotor built by the constructor from a catalog type is well-formed. -/
theorem rotor_wf_mkRotor (t : String) (ht : validRotorType t) (p : Char) (k : Nat) :
    RotorWF (mkRotor t p k) := by
  have hbase : RotorWF (rotor_base t p k) :=
    ⟨perm_alpha_of_valid t ht, List.Perm.refl _⟩
  exact rotor_wf_iterate rotor_wf_rss _ _ (rotor_wf_iterate rotor_wf_ips _ _ hbase)

/-- Every reachable rotor state is well-formed. -/
theorem rotor_wf_reachable (r : Rotor) (h : ReachableRotor r) : RotorWF r := by
  obtain ⟨t, p, k, n, ht, _, rfl⟩ := h
  exact rotor_wf_iterate rotor_wf_rotate n _ (rotor_wf_mkRotor t ht p k)

/-- Looking a letter up in one 26-letter rearrangement of the alphabet and
    reading the other one off at that index is inverted by the mirrored
    lookup. -/
theorem lookup_roundtrip (l1 l2 : List Char) (h1 : l1.Perm ALPHA) (h2 : l2.Perm ALPHA)
    (c : Char) (hc : c ∈ ALPHA) :
    ∃ d, d ∈ ALPHA ∧ (idx? l1 c).bind l2.get? = some d ∧ (idx? l2 d).bind l1.get? = some c := by
  have hc1 : c ∈ l1 := h1.mem_iff.mpr hc
  have hi : l1.indexOf c < l1.length := List.indexOf_lt_length.mpr hc1
  have hlen : l1.length = l2.length := h1.length_eq.trans h2.length_eq.symm
  have hi2 : l1.indexOf c < l2.length := hlen ▸ hi
  refine ⟨l2.get ⟨l1.indexOf c, hi2⟩, ?_, ?_, ?_⟩
  · exact h2.mem_iff.mp (l2.get_mem _ _)
  · rw [idx?, if_pos hc1]
    show l2.get? (l1.indexOf c) = some _
    exact List.get?_eq_get hi2
  · have hd2 : l2.get ⟨l1.indexOf c, hi2⟩ ∈ l2 := l2.get_mem _ _
    have hnod2 : l2.Nodup := h2.nodup_iff.mpr alpha_nodup
    have hidx : l2.indexOf (l2.get ⟨l1.indexOf c, hi2⟩) = l1.indexOf c :=
      List.get_indexOf hnod2 _
    rw [idx?, if_pos hd2, hidx]
    show l1.get? (l1.indexOf c) = some c
    rw [List.get?_eq_get hi, List.indexOf_get hi]

/-- C10: for every reachable rotor state and every alphabet letter, the two
    directional encodings through the rotor invert each other. -/
theorem c10_rotor_passes_inverse (r : Rotor) (h : ReachableRotor r) (c : Char)
    (hc : c ∈ ALPHA) :
    (encode_right_to_left r c).bind (encode_left_to_right r) = some c ∧
    (encode_left_to_right r c).bind (encode_right_to_left r) = some c := by
  obtain ⟨hw, hl⟩ := rotor_wf_reachable r h
  constructor
  · obtain ⟨d, _, e1, e2⟩ := lookup_roundtrip r.label r.rotor_wiring hl hw c hc
    rw [encode_right_to_left, e1]
    simpa [encode_left_to_right] using e2
  · obtain ⟨d, _, e1, e2⟩ := lookup_roundtrip r.rotor_wiring r.label hw hl c hc
    rw [encode_left_to_right, e1]
    simpa [encode_right_to_left] using e2

/-- Witness for C10 at rotor I, position `A`, ring 1, letter `A`. -/
theorem c10_rotor_passes_inverse_witness :
    (encode_right_to_left (mkRotor "I" 'A' 1) 'A').bind
        (encode_left_to_right (mkRotor "I" 'A' 1)) = some 'A' ∧
    (encode_left_to_right (mkRotor "I" 'A' 1) 'A').bind
        (encode_right_to_left (mkRotor "I" 'A' 1)) = some 'A' :=
  c10_rotor_passes_inverse (mkRotor "I" 'A' 1)
    ⟨"I", 'A', 1, 0, by decide, by decide, rfl⟩ 'A' (by decide)

/-- The ring-setting field plays no role in the position-setting loop: it is
    carried through unchanged and nothing reads it. -/
theorem set_init_ring (r : Rotor) (k : Nat) (p : Char) :
    set_rotor_to_initial_position { r with ring_setting := k } p =
      { set_rotor_to_initial_position r p with ring_setting := k } := by
  unfold set_rotor_to_initial_position
  have hstep : ∀ (m : Nat) (s : Rotor),
      initial_position_step^[m] { s with ring_setting := k } =
        { initial_position_step^[m] s with ring_setting := k } := by
    intro m
    induction m with
    | zero => intro s; rfl
    | succ m ih =>
      intro s
      rw [Function.iterate_succ_apply, Function.iterate_succ_apply]
      exact ih (initial_position_step s)
  exact hstep (r.label.indexOf p) r

/-- The wiring after `n` ring-setting rotations is `n` right rotations of the
    original wiring. -/
theorem rss_iter_wiring : ∀ (n : Nat) (r : Rotor),
    (ring_setting_step^[n] r).rotor_wiring = rotRight^[n] r.rotor_wiring := by
  intro n
  induction n with
  | zero => intro r; rfl
  | succ n ih =>
    intro r
    rw [Function.iterate_succ_apply, Function.iterate_succ_apply]
    exact ih (ring_setting_step r)

/-- The label after `n` ring-setting rotations is `n` right rotations of the
    original label: wiring and label rotate in lockstep. -/
theorem rss_iter_label : ∀ (n : Nat) (r : Rotor),
    (ring_setting_step^[n] r).label = rotRight^[n] r.label := by
  intro n
  induction n with
  | zero => intro r; rfl
  | succ n ih =>
    intro r
    rw [Function.iterate_succ_apply, Function.iterate_succ_apply]
    exact ih (ring_setting_step r)

/-- The notch after `n` ring-setting rotations is `n` applications of the
    code's decrement-and-wrap map (`adjust_notch_position` does nothing to a
    notch-free rotor). -/
theorem rss_iter_notch : ∀ (n : Nat) (r : Rotor),
    (ring_setting_step^[n] r).notch = (Option.map notch_dec_code)^[n] r.notch := by
  intro n
  induction n with
  | zero => intro r; rfl
  | succ n ih =>
    intro r
    rw [Function.iterate_succ_apply, Function.iterate_succ_apply]
    exact ih (ring_setting_step r)

/-- Setting the initial position never touches the notch. -/
theorem set_init_notch (r : Rotor) (p : Char) :
    (set_rotor_to_initial_position r p).notch = r.notch := by
  unfold set_rotor_to_initial_position
  generalize r.label.indexOf p = m
  induction m generalizing r with
  | zero => rfl
  | succ m ih =>
    rw [Function.iterate_succ_apply]
    exact ih (initial_position_step r)

theorem map_iter_some (f : Int → Int) : ∀ (k : Nat) (n : Int),
    (Option.map f)^[k] (some n) = some (f^[k] n) := by
  intro k
  induction k with
  | zero => intro n; rfl
  | succ k ih =>
    intro n
    rw [Function.iterate_succ_apply, Function.iterate_succ_apply]
    exact ih (f n)

theorem map_iter_none (f : Int → Int) : ∀ (k : Nat),
    (Option.map f)^[k] (none : Option Int) = none := by
  intro k
  induction k with
  | zero => rfl
  | succ k ih => rw [Function.iterate_succ_apply]; exact ih

/-- On notch values that stay at least 1 the code's wrap test (`n - 1 < 1`)
    agrees with the spec's (`n = 1`), so the two decrement maps iterate
    identically. -/
theorem iter_dec_code_eq_spec : ∀ (k : Nat) (n : Int), 1 ≤ n →
    notch_dec_code^[k] n = notch_dec_spec^[k] n := by
  intro k
  induction k with
  | zero => intro n _; rfl
  | succ k ih =>
    intro n hn
    rw [Function.iterate_succ_apply, Function.iterate_succ_apply]
    have heq : notch_dec_code n = notch_dec_spec n := by
      unfold notch_dec_code notch_dec_spec
      split_ifs <;> omega
    have hge : 1 ≤ notch_dec_code n := by
      unfold notch_dec_code
      split_ifs <;> omega
    rw [← heq]
    exact ih _ hge

/-- Closed form of the iterated decrement on the catalog range. -/
theorem iter_dec_code_closed : ∀ (k : Nat) (n : Int), 1 ≤ n → n ≤ 26 →
    notch_dec_code^[k] n = (n - 1 - k) % 26 + 1 := by
  intro k
  induction k with
  | zero => intro n h1 h2; simp; omega
  | succ k ih =>
    intro n h1 h2
    rw [Function.iterate_succ_apply]
    have h1' : 1 ≤ notch_dec_code n := by unfold notch_dec_code; split_ifs <;> omega
    have h2' : notch_dec_code n ≤ 26 := by unfold notch_dec_code; split_ifs <;> omega
    rw [ih _ h1' h2']
    unfold notch_dec_code
    split_ifs <;> push_cast <;> omega

/-- C4: construction applies exactly `ring_setting − 1` ring rotations: the
    wiring and the label of `mkRotor t p r` are `r − 1` right rotations of
    those of `mkRotor t p 1`, and its notch is `r − 1` applications of the
    decrement-wrapping-1-to-26 map to the notch of `mkRotor t p 1`; in closed
    form the notch lands at `(n − r) mod 26 + 1`. -/
theorem c4_ring_setting (t : String) (ht : validRotorType t) (p : Char) (hp : p ∈ ALPHA)
    (ring : Nat) (hr1 : 1 ≤ ring) (hr2 : ring ≤ 26) :
    (mkRotor t p ring).rotor_wiring = rotRight^[ring - 1] ((mkRotor t p 1).rotor_wiring) ∧
    (mkRotor t p ring).label = rotRight^[ring - 1] ((mkRotor t p 1).label) ∧
    (mkRotor t p ring).notch =
      (Option.map notch_dec_spec)^[ring - 1] ((mkRotor t p 1).notch) ∧
    (∀ n : Int, (mkRotor t p 1).notch = some n →
      (mkRotor t p ring).notch = some ((n - ring) % 26 + 1)) := by
  have ecomm : set_rotor_to_initial_position (rotor_base t p ring) p =
      { set_rotor_to_initial_position (rotor_base t p 1) p with ring_setting := ring } :=
    set_init_ring (rotor_base t p 1) ring p
  have e1 : mkRotor t p 1 = set_rotor_to_initial_position (rotor_base t p 1) p := rfl
  have eR : mkRotor t p ring =
      ring_setting_step^[ring - 1] (set_rotor_to_initial_position (rotor_base t p ring) p) :=
    rfl
  have hnq : (set_rotor_to_initial_position (rotor_base t p 1) p).notch =
      notchData (pyLower t) := set_init_notch _ _
  have hbound : notchData (pyLower t) = none ∨
      ∃ n : Int, notchData (pyLower t) = some n ∧ 1 ≤ n ∧ n ≤ 26 := by
    simp only [validRotorType, List.mem_cons, List.not_mem_nil, or_false] at ht
    rcases ht with h | h | h | h | h | h | h <;> rw [h]
    · exact Or.inl rfl
    · exact Or.inl rfl
    · exact Or.inr ⟨17, rfl, by omega, by omega⟩
    · exact Or.inr ⟨5, rfl, by omega, by omega⟩
    · exact Or.inr ⟨22, rfl, by omega, by omega⟩
    · exact Or.inr ⟨10, rfl, by omega, by omega⟩
    · exact Or.inr ⟨26, rfl, by omega, by omega⟩
  refine ⟨?_, ?_, ?_, ?_⟩
  · rw [eR, e1, ecomm, rss_iter_wiring]
  · rw [eR, e1, ecomm, rss_iter_label]
  · rw [eR, e1, ecomm, rss_iter_notch]
    rcases hbound with hnone | ⟨n, hsome, hn1, _⟩
    · have : (set_rotor_to_initial_position (rotor_base t p 1) p).notch = none :=
        hnq.trans hnone
      rw [show ({ set_rotor_to_initial_position (rotor_base t p 1) p with
            ring_setting := ring } : Rotor).notch =
          (set_rotor_to_initial_position (rotor_base t p 1) p).notch from rfl, this,
        map_iter_none, map_iter_none]
    · have hq : (set_rotor_to_initial_position (rotor_base t p 1) p).notch = some n :=
        hnq.trans hsome
      rw [show ({ set_rotor_to_initial_position (rotor_base t p 1) p with
            ring_setting := ring } : Rotor).notch =
          (set_rotor_to_initial_position (rotor_base t p 1) p).notch from rfl, hq,
        map_iter_some, map_iter_some, iter_dec_code_eq_spec _ _ hn1]
  · intro n hmk
    rw [e1, hnq] at hmk
    rcases hbound with hnone | ⟨n', hsome, hn1, hn2⟩
    · rw [hnone] at hmk; exact absurd hmk (by simp)
    · rw [hsome] at hmk
      have hn : n' = n := by injection hmk
      subst hn
      rw [eR, rss_iter_notch, ecomm,
        show ({ set_rotor_to_initial_position (rotor_base t p 1) p with
            ring_setting := ring } : Rotor).notch =
          (set_rotor_to_initial_position (rotor_base t p 1) p).notch from rfl,
        hnq, hsome, map_iter_some, iter_dec_code_closed _ _ hn1 hn2]
      congr 1
      have : ((ring - 1 : Nat) : Int) = (ring : Int) - 1 := by
        omega
      rw [this]
      ring_nf

/-- Witness for C4 at rotor III, position `A`, ring setting 2. -/
theorem c4_ring_setting_witness :
    (mkRotor "iii" 'A' 2).rotor_wiring = rotRight^[1] ((mkRotor "iii" 'A' 1).rotor_wiring) ∧
    (mkRotor "iii" 'A' 2).notch = some ((22 - 2) % 26 + 1) :=
  ⟨(c4_ring_setting "iii" (by decide) 'A' (by decide) 2 (by omega) (by omega)).1,
   (c4_ring_setting "iii" (by decide) 'A' (by decide) 2 (by omega) (by omega)).2.2.2 22
     (by decide)⟩

/-- `reset_deque` rebuilds exactly the rotor that the constructor produces
    from the stored type, initial position and ring setting. -/
theorem reset_eq_mk (r : Rotor) :
    reset_deque r = mkRotor r.rotor_type r.initial_position r.ring_setting := rfl

/-- The stepping block only rotates sequences and bumps offsets: the type,
    initial position and ring setting of each of the three rotors survive. -/
theorem stepPhase_params (r0 r1 r2 : Rotor) (b : Bool) :
    ((stepPhase r0 r1 r2 b).1.rotor_type = r0.rotor_type ∧
      (stepPhase r0 r1 r2 b).1.initial_position = r0.initial_position ∧
      (stepPhase r0 r1 r2 b).1.ring_setting = r0.ring_setting) ∧
    ((stepPhase r0 r1 r2 b).2.1.rotor_type = r1.rotor_type ∧
      (stepPhase r0 r1 r2 b).2.1.initial_position = r1.initial_position ∧
      (stepPhase r0 r1 r2 b).2.1.ring_setting = r1.ring_setting) ∧
    ((stepPhase r0 r1 r2 b).2.2.1.rotor_type = r2.rotor_type ∧
      (stepPhase r0 r1 r2 b).2.2.1.initial_position = r2.initial_position ∧
      (stepPhase r0 r1 r2 b).2.2.1.ring_setting = r2.ring_setting) := by
  simp only [stepPhase]
  split_ifs <;> exact ⟨⟨rfl, rfl, rfl⟩, ⟨rfl, rfl, rfl⟩, rfl, rfl, rfl⟩

/-- Through the whole encoding loop, each of the three stepped rotors keeps
    its identifying parameters. -/
theorem encode_loop_params (pb : Plugboard) (R : Reflector) (rest : List Rotor) :
    ∀ (s : List Char) (r0 r1 r2 : Rotor) (third : Bool) (acc out : List Char)
      (r0' r1' r2' : Rotor),
      encode_loop pb R rest r0 r1 r2 third acc s = .ok (out, r0', r1', r2') →
      (r0'.rotor_type = r0.rotor_type ∧ r0'.initial_position = r0.initial_position ∧
        r0'.ring_setting = r0.ring_setting) ∧
      (r1'.rotor_type = r1.rotor_type ∧ r1'.initial_position = r1.initial_position ∧
        r1'.ring_setting = r1.ring_setting) ∧
      (r2'.rotor_type = r2.rotor_type ∧ r2'.initial_position = r2.initial_position ∧
        r2'.ring_setting = r2.ring_setting) := by
  intro s
  induction s with
  | nil =>
    intro r0 r1 r2 third acc out r0' r1' r2' h
    rw [encode_loop] at h
    injection h with h
    injection h with h1 h
    injection h with h2 h
    injection h with h3 h4
    subst h2; subst h3; subst h4
    exact ⟨⟨rfl, rfl, rfl⟩, ⟨rfl, rfl, rfl⟩, rfl, rfl, rfl⟩
  | cons c cs ih =>
    intro r0 r1 r2 third acc out r0' r1' r2' h
    rw [encode_loop] at h
    cases hm : encode_char pb
        ((stepPhase r0 r1 r2 third).1 :: (stepPhase r0 r1 r2 third).2.1 ::
          (stepPhase r0 r1 r2 third).2.2.1 :: rest) R c with
    | none => rw [hm] at h; exact absurd h (by simp)
    | some c' =>
      rw [hm] at h
      have hstep := stepPhase_params r0 r1 r2 third
      have hrec := ih _ _ _ _ _ _ _ _ _ h
      refine ⟨⟨?_, ?_, ?_⟩, ⟨?_, ?_, ?_⟩, ?_, ?_, ?_⟩
      · exact hrec.1.1.trans hstep.1.1
      · exact hrec.1.2.1.trans hstep.1.2.1
      · exact hrec.1.2.2.trans hstep.1.2.2
      · exact hrec.2.1.1.trans hstep.2.1.1
      · exact hrec.2.1.2.1.trans hstep.2.1.2.1
      · exact hrec.2.1.2.2.trans hstep.2.1.2.2
      · exact hrec.2.2.1.trans hstep.2.2.1
      · exact hrec.2.2.2.1.trans hstep.2.2.2.1
      · exact hrec.2.2.2.2.trans hstep.2.2.2.2

/-- Unfolding `encode_sequence` on a drum of at least three rotors whose
    loop succeeds. -/
theorem encode_sequence_cons (pb : Plugboard) (R : Reflector) (rest : List Rotor)
    (r0 r1 r2 : Rotor) (s acc : List Char) (r0' r1' r2' : Rotor)
    (hloop : encode_loop pb R rest r0 r1 r2 (initialThirdFlag r2) [] s =
      .ok (acc, r0', r1', r2')) :
    encode_sequence ⟨pb, r0 :: r1 :: r2 :: rest, R⟩ s =
      .ok (acc, ⟨pb, (r0' :: r1' :: r2' :: rest).map reset_deque, R⟩) := by
  simp only [encode_sequence, hloop]

/-- C9: after a successful `encode_sequence`, every rotor of the drum equals
    a freshly constructed rotor with the same type, initial position and ring
    setting; consequently on a machine of freshly constructed rotors the
    post-call state is the pre-call state, so repeating the call (or running
    a fresh engine built from the same settings) reproduces the output. -/
theorem c9_reset_determinism (m : EnigmaState) (s out : List Char) (m' : EnigmaState)
    (h : encode_sequence m s = .ok (out, m')) :
    m'.drum = m.drum.map
      (fun r => mkRotor r.rotor_type r.initial_position r.ring_setting) ∧
    ((∀ r ∈ m.drum, r = mkRotor r.rotor_type r.initial_position r.ring_setting) →
      m' = m ∧ encode_sequence m' s = .ok (out, m')) := by
  obtain ⟨pb, drum, R⟩ := m
  rcases drum with _ | ⟨a, _ | ⟨b, _ | ⟨c, rest⟩⟩⟩
  · exact absurd h (by simp [encode_sequence])
  · exact absurd h (by simp [encode_sequence])
  · exact absurd h (by simp [encode_sequence])
  · simp only [encode_sequence] at h
    split at h
    · rename_i acc r0' r1' r2' hloop
      injection h with h
      injection h with hout hst
      subst hout
      have hp := encode_loop_params pb R rest s a b c (initialThirdFlag c) [] acc
        r0' r1' r2' hloop
      have hdrum : m'.drum = (r0' :: r1' :: r2' :: rest).map reset_deque := by
        rw [← hst]
      have hmap : (r0' :: r1' :: r2' :: rest).map reset_deque =
          (a :: b :: c :: rest).map
            (fun r => mkRotor r.rotor_type r.initial_position r.ring_setting) := by
        simp only [List.map_cons]
        refine congrArg₂ _ ?_ (congrArg₂ _ ?_ (congrArg₂ _ ?_ ?_))
        · rw [reset_eq_mk, hp.1.1, hp.1.2.1, hp.1.2.2]
        · rw [reset_eq_mk, hp.2.1.1, hp.2.1.2.1, hp.2.1.2.2]
        · rw [reset_eq_mk, hp.2.2.1, hp.2.2.2.1, hp.2.2.2.2]
        · exact List.map_congr_left fun r _ => reset_eq_mk r
      have hfirst : m'.drum = (a :: b :: c :: rest).map
          (fun r => mkRotor r.rotor_type r.initial_position r.ring_setting) :=
        hdrum.trans hmap
      refine ⟨hfirst, fun hfresh => ?_⟩
      have hid : (a :: b :: c :: rest).map
          (fun r => mkRotor r.rotor_type r.initial_position r.ring_setting) =
          a :: b :: c :: rest := by
        have hcongr := List.map_congr_left
          (f := fun r : Rotor => mkRotor r.rotor_type r.initial_position r.ring_setting)
          (g := fun r : Rotor => r) fun r hr => (hfresh r hr).symm
        simpa using hcongr
      have hm' : m' = ⟨pb, a :: b :: c :: rest, R⟩ := by
        rw [← hst]
        congr 1
        rw [hmap]
        exact hid
      refine ⟨hm', ?_⟩
      have h2 := encode_sequence_cons pb R rest a b c s acc r0' r1' r2' hloop
      rw [hm']
      exact h2.trans (by rw [hst, hm'])
    · exact absurd h (by simp)

/-- Witness for C9 on the fresh machine and the string `AB` (which encodes to
    `FU` and hands the machine back in its starting state). -/
theorem c9_reset_determinism_witness :
    freshMachine = freshMachine ∧
    encode_sequence freshMachine ['A', 'B'] = .ok (['F', 'U'], freshMachine) :=
  (c9_reset_determinism freshMachine ['A', 'B'] ['F', 'U'] freshMachine
      (by decide)).2 (by decide)

/-- Reading position `i` off one 26-letter rearrangement of the alphabet and
    looking the letter up in another is inverted by the mirrored read/lookup. -/
theorem step_roundtrip (l1 l2 : List Char) (h1 : l1.Perm ALPHA) (h2 : l2.Perm ALPHA)
    (i : Nat) (hi : i < 26) :
    ∃ j, j < 26 ∧ ((l1.get? i).bind fun ch => idx? l2 ch) = some j ∧
      ((l2.get? j).bind fun ch => idx? l1 ch) = some i := by
  have hl1 : l1.length = 26 := h1.length_eq.trans alpha_length
  have hl2 : l2.length = 26 := h2.length_eq.trans alpha_length
  have hi1 : i < l1.length := by omega
  have hch := List.get?_eq_get hi1
  set ch := l1.get ⟨i, hi1⟩ with hchdef
  have hchm1 : ch ∈ l1 := l1.get_mem _ _
  have hchm2 : ch ∈ l2 := h2.mem_iff.mpr (h1.mem_iff.mp hchm1)
  have hj : l2.indexOf ch < l2.length := List.indexOf_lt_length.mpr hchm2
  refine ⟨l2.indexOf ch, by omega, ?_, ?_⟩
  · rw [hch, Option.some_bind, idx?, if_pos hchm2]
  · rw [List.indexOf_get? hchm2, Option.some_bind, idx?, if_pos hchm1]
    have hnod : l1.Nodup := h1.nodup_iff.mpr alpha_nodup
    rw [hchdef, List.get_indexOf hnod]

/-- The right-to-left pass through a well-formed drum is inverted by the
    left-to-right pass. -/
theorem passes_roundtrip (drum : List Rotor) (hwf : ∀ r ∈ drum, RotorWF r) :
    ∀ i, i < 26 →
      ∃ j, j < 26 ∧ forward_pass drum i = some j ∧ backward_pass drum j = some i := by
  induction drum with
  | nil => intro i hi; exact ⟨i, hi, rfl, rfl⟩
  | cons r rs ih =>
    intro i hi
    have hr : RotorWF r := hwf r (by simp)
    have hrs : ∀ x ∈ rs, RotorWF x := fun x hx => hwf x (by simp [hx])
    obtain ⟨k, hk, e1, e2⟩ := step_roundtrip r.rotor_wiring r.label hr.1 hr.2 i hi
    obtain ⟨j, hj, f1, f2⟩ := ih hrs k hk
    refine ⟨j, hj, ?_, ?_⟩
    · rw [forward_pass, e1, Option.some_bind]; exact f1
    · rw [backward_pass, f2, Option.some_bind]; exact e2

/-- The left-to-right pass through a well-formed drum is inverted by the
    right-to-left pass. -/
theorem passes_roundtrip_rev (drum : List Rotor) (hwf : ∀ r ∈ drum, RotorWF r) :
    ∀ j, j < 26 →
      ∃ i, i < 26 ∧ backward_pass drum j = some i ∧ forward_pass drum i = some j := by
  induction drum with
  | nil => intro j hj; exact ⟨j, hj, rfl, rfl⟩
  | cons r rs ih =>
    intro j hj
    have hr : RotorWF r := hwf r (by simp)
    have hrs : ∀ x ∈ rs, RotorWF x := fun x hx => hwf x (by simp [hx])
    obtain ⟨m, hm, f1, f2⟩ := ih hrs j hj
    obtain ⟨i, hi, e1, e2⟩ := step_roundtrip r.label r.rotor_wiring hr.2 hr.1 m hm
    refine ⟨i, hi, ?_, ?_⟩
    · rw [backward_pass, f1, Option.some_bind]; exact e1
    · rw [forward_pass, e2, Option.some_bind]; exact f2

/-- With pairwise-disjoint leads, `find?` returns the (unique) stored lead
    containing a given letter. -/
theorem find_unique_lead (leads : List PlugLead)
    (hdisj : List.Pairwise (fun l1 l2 => ∀ x ∈ l1.lead_mapping, x ∉ l2.lead_mapping) leads)
    (l : PlugLead) (hl : l ∈ leads) (b : Char) (hb : b ∈ l.lead_mapping) :
    leads.find? (fun l2 => l2.lead_mapping.contains b) = some l := by
  induction leads with
  | nil => cases hl
  | cons x xs ih =>
    rcases List.mem_cons.mp hl with rfl | hl2
    · rw [List.find?_cons_of_pos]
      simpa using hb
    · have hx : b ∉ x.lead_mapping := by
        intro hbx
        exact (List.pairwise_cons.mp hdisj).1 l hl2 b hbx hb
      rw [List.find?_cons_of_neg]
      · exact ih (List.pairwise_cons.mp hdisj).2 hl2
      · simpa using hx

/-- A well-formed plugboard encodes every alphabet letter to an alphabet
    letter, involutively. -/
theorem plugboard_invol (pb : Plugboard) (hpb : PlugboardWF pb) (c : Char) (hc : c ∈ ALPHA) :
    ∃ d, d ∈ ALPHA ∧ pb.encode c = some d ∧ pb.encode d = some c := by
  obtain ⟨hleads, hdisj⟩ := hpb
  cases hfind : pb.plug_leads.find? (fun l => l.lead_mapping.contains c) with
  | none =>
    exact ⟨c, hc, by rw [Plugboard.encode, hfind], by rw [Plugboard.encode, hfind]⟩
  | some l =>
    have hlmem : l ∈ pb.plug_leads := List.mem_of_find?_eq_some hfind
    have hcmem : c ∈ l.lead_mapping := by simpa using List.find?_some hfind
    obtain ⟨a, b, hab, ha, hb, hm⟩ := hleads l hlmem
    rw [hm] at hcmem
    have henc_a : l.encode a = some b := by
      rw [PlugLead.encode, if_pos (by rw [hm]; simp), hm]
      have h1 : (a != a) = false := by simp
      have h2 : (b != a) = true := by simpa using hab.symm
      simp [List.filter, h1, h2]
    have henc_b : l.encode b = some a := by
      rw [PlugLead.encode, if_pos (by rw [hm]; simp), hm]
      have h1 : (a != b) = true := by simpa using hab
      have h2 : (b != b) = false := by simp
      simp [List.filter, h1, h2]
    have hfind_a : pb.plug_leads.find? (fun l2 => l2.lead_mapping.contains a) = some l :=
      find_unique_lead pb.plug_leads hdisj l hlmem a (by rw [hm]; simp)
    have hfind_b : pb.plug_leads.find? (fun l2 => l2.lead_mapping.contains b) = some l :=
      find_unique_lead pb.plug_leads hdisj l hlmem b (by rw [hm]; simp)
    rcases (by simpa using hcmem : c = a ∨ c = b) with rfl | rfl
    · exact ⟨b, hb, by rw [Plugboard.encode, hfind_a]; exact henc_a,
        by rw [Plugboard.encode, hfind_b]; exact henc_b⟩
    · exact ⟨a, ha, by rw [Plugboard.encode, hfind_b]; exact henc_b,
        by rw [Plugboard.encode, hfind_a]; exact henc_a⟩

/-- A reflector passing the executable check satisfies `ReflectorOK`. -/
theorem reflectorOK_of_check (R : Reflector) (h : reflectorCheck R = true) :
    ReflectorOK R := by
  intro i hi
  have hall := List.all_eq_true.mp h i (List.mem_range.mpr hi)
  cases hrc : reflect_contact R i with
  | none => rw [hrc] at hall; cases hall
  | some j =>
    rw [hrc] at hall
    simp only [Bool.and_eq_true, decide_eq_true_eq, beq_iff_eq] at hall
    exact ⟨j, hall.1, rfl, hall.2⟩

/-- Every catalog reflector, in either letter case, satisfies `ReflectorOK`. -/
theorem reflectorOK_catalog :
    ∀ t ∈ (["a", "b", "c", "A", "B", "C"] : List String),
      ReflectorOK (mkReflector t) := by
  intro t ht
  refine reflectorOK_of_check _ ?_
  fin_cases ht <;> decide

/-- The stepping block keeps all three rotors well-formed (it only rotates). -/
theorem stepPhase_wf (r0 r1 r2 : Rotor) (b : Bool) (h0 : RotorWF r0) (h1 : RotorWF r1)
    (h2 : RotorWF r2) :
    RotorWF (stepPhase r0 r1 r2 b).1 ∧ RotorWF (stepPhase r0 r1 r2 b).2.1 ∧
      RotorWF (stepPhase r0 r1 r2 b).2.2.1 := by
  simp only [stepPhase]
  split_ifs <;>
    exact ⟨rotor_wf_rotate _ h0,
      by first
        | exact h1
        | exact rotor_wf_rotate _ h1
        | exact rotor_wf_rotate _ (rotor_wf_rotate _ h1),
      by first
        | exact h2
        | exact rotor_wf_rotate _ h2⟩

/-- `encode_char` written out as the bind chain of the per-letter pipeline. -/
theorem encode_char_eq (pb : Plugboard) (drum : List Rotor) (R : Reflector) (letter : Char) :
    encode_char pb drum R letter =
      (pb.encode letter).bind fun pc =>
        (idx? ALPHA pc).bind fun c0 =>
          (forward_pass drum c0).bind fun c1 =>
            (reflect_contact R c1).bind fun c2 =>
              (backward_pass drum c2).bind fun c3 =>
                (ALPHA.get? c3).bind fun oc => pb.encode oc := rfl

/-- On a well-formed machine state, the per-letter pipeline maps every
    alphabet letter to an alphabet letter and is involutive. -/
theorem encode_char_invol (pb : Plugboard) (drum : List Rotor) (R : Reflector)
    (hwf : ∀ r ∈ drum, RotorWF r) (hpb : PlugboardWF pb) (hR : ReflectorOK R)
    (c : Char) (hc : c ∈ ALPHA) :
    ∃ d, d ∈ ALPHA ∧ encode_char pb drum R c = some d ∧ encode_char pb drum R d = some c := by
  obtain ⟨pc, hpc, hp1, hp2⟩ := plugboard_invol pb hpb c hc
  have hidx : idx? ALPHA pc = some (ALPHA.indexOf pc) := by rw [idx?, if_pos hpc]
  have hi0 : ALPHA.indexOf pc < 26 := by
    have h := List.indexOf_lt_length.mpr hpc
    rw [alpha_length] at h
    exact h
  obtain ⟨j, hj, hf1, hb1⟩ := passes_roundtrip drum hwf _ hi0
  obtain ⟨k, hk, hr1, hr2⟩ := hR j hj
  obtain ⟨i3, hi3, hb2, hf2⟩ := passes_roundtrip_rev drum hwf k hk
  have hi3' : i3 < ALPHA.length := by rw [alpha_length]; exact hi3
  have hgi3 : ALPHA.get? i3 = some (ALPHA.get ⟨i3, hi3'⟩) := List.get?_eq_get hi3'
  set oc := ALPHA.get ⟨i3, hi3'⟩ with hocdef
  have hocm : oc ∈ ALPHA := ALPHA.get_mem _ _
  have hoci : ALPHA.indexOf oc = i3 := by rw [hocdef, List.get_indexOf alpha_nodup]
  have hidx2 : idx? ALPHA oc = some i3 := by rw [idx?, if_pos hocm, hoci]
  have hgpc : ALPHA.get? (ALPHA.indexOf pc) = some pc := List.indexOf_get? hpc
  obtain ⟨d, hd, hq1, hq2⟩ := plugboard_invol pb hpb oc hocm
  refine ⟨d, hd, ?_, ?_⟩
  · rw [encode_char_eq, hp1, Option.some_bind, hidx, Option.some_bind, hf1,
      Option.some_bind, hr1, Option.some_bind, hb2, Option.some_bind, hgi3,
      Option.some_bind]
    exact hq1
  · rw [encode_char_eq, hq2, Option.some_bind, hidx2, Option.some_bind, hf2,
      Option.some_bind, hr2, Option.some_bind, hb1, Option.some_bind, hgpc,
      Option.some_bind]
    exact hp2

/-- Unfolding `encode_sequence` on a one-character string whose pipeline
    succeeds. -/
theorem encode_sequence_single (pb : Plugboard) (R : Reflector) (rest : List Rotor)
    (r0 r1 r2 : Rotor) (z d : Char)
    (hc : encode_char pb ((stepPhase r0 r1 r2 (initialThirdFlag r2)).1 ::
        (stepPhase r0 r1 r2 (initialThirdFlag r2)).2.1 ::
        (stepPhase r0 r1 r2 (initialThirdFlag r2)).2.2.1 :: rest) R z = some d) :
    encode_sequence ⟨pb, r0 :: r1 :: r2 :: rest, R⟩ [z] =
      .ok ([d], ⟨pb, (rotorOffsetBump (stepPhase r0 r1 r2 (initialThirdFlag r2)).1 ::
          (stepPhase r0 r1 r2 (initialThirdFlag r2)).2.1 ::
          (stepPhase r0 r1 r2 (initialThirdFlag r2)).2.2.1 :: rest).map reset_deque, R⟩) := by
  have hloop : encode_loop pb R rest r0 r1 r2 (initialThirdFlag r2) [] [z] =
      .ok ([d], rotorOffsetBump (stepPhase r0 r1 r2 (initialThirdFlag r2)).1,
        (stepPhase r0 r1 r2 (initialThirdFlag r2)).2.1,
        (stepPhase r0 r1 r2 (initialThirdFlag r2)).2.2.1) := by
    simp only [encode_loop, hc, List.nil_append]
  exact encode_sequence_cons pb R rest r0 r1 r2 [z] [d] _ _ _ hloop

/-- C1: on any freshly set-up machine of 3 or 4 catalog rotors, a well-formed
    plugboard and a catalog reflector, single-character encoding is
    self-reciprocal: if `x` encodes to `y`, then `y` encodes to `x` through
    the machine reset to the identical starting configuration (and the
    post-call states coincide as well). -/
theorem c1_self_reciprocity (m : EnigmaState)
    (hlen : m.drum.length = 3 ∨ m.drum.length = 4)
    (hrot : ∀ r ∈ m.drum, ∃ t p k, validRotorType t ∧ p ∈ ALPHA ∧ r = mkRotor t p k)
    (hrefl : ∃ t ∈ (["a", "b", "c", "A", "B", "C"] : List String),
      m.reflector = mkReflector t)
    (hpb : PlugboardWF m.plugboard)
    (x y : Char) (hx : x ∈ ALPHA) (s1 : EnigmaState)
    (henc : encode_sequence m [x] = .ok ([y], s1)) :
    encode_sequence m [y] = .ok ([x], s1) := by
  obtain ⟨pb, drum, R⟩ := m
  obtain ⟨r0, r1, r2, rest, rfl⟩ : ∃ r0 r1 r2 rest, drum = r0 :: r1 :: r2 :: rest := by
    rcases drum with _ | ⟨a, _ | ⟨b, _ | ⟨c, rest⟩⟩⟩
    · simp at hlen
    · simp at hlen
    · simp at hlen
    · exact ⟨a, b, c, rest, rfl⟩
  have hwf : ∀ r ∈ r0 :: r1 :: r2 :: rest, RotorWF r := by
    intro r hr
    obtain ⟨t, p, k, ht, _, rfl⟩ := hrot r hr
    exact rotor_wf_mkRotor t ht p k
  have hwf3 := stepPhase_wf r0 r1 r2 (initialThirdFlag r2)
    (hwf r0 (by simp)) (hwf r1 (by simp)) (hwf r2 (by simp))
  have hwf' : ∀ r ∈ (stepPhase r0 r1 r2 (initialThirdFlag r2)).1 ::
      (stepPhase r0 r1 r2 (initialThirdFlag r2)).2.1 ::
      (stepPhase r0 r1 r2 (initialThirdFlag r2)).2.2.1 :: rest, RotorWF r := by
    intro r hr
    rcases List.mem_cons.mp hr with rfl | hr
    · exact hwf3.1
    rcases List.mem_cons.mp hr with rfl | hr
    · exact hwf3.2.1
    rcases List.mem_cons.mp hr with rfl | hr
    · exact hwf3.2.2
    · exact hwf r (by simp [hr])
  have hR : ReflectorOK R := by
    obtain ⟨t, ht, hRt⟩ := hrefl
    rw [show (⟨pb, r0 :: r1 :: r2 :: rest, R⟩ : EnigmaState).reflector = R from rfl] at hRt
    rw [hRt]
    exact reflectorOK_catalog t ht
  obtain ⟨d, hd, he1, he2⟩ := encode_char_invol pb
    ((stepPhase r0 r1 r2 (initialThirdFlag r2)).1 ::
      (stepPhase r0 r1 r2 (initialThirdFlag r2)).2.1 ::
      (stepPhase r0 r1 r2 (initialThirdFlag r2)).2.2.1 :: rest) R hwf' hpb hR x hx
  have h1 := encode_sequence_single pb R rest r0 r1 r2 x d he1
  rw [h1] at henc
  injection henc with henc
  injection henc with hyd hs
  have hdy : d = y := by simpa using hyd
  subst hdy
  have h2 := encode_sequence_single pb R rest r0 r1 r2 d x he2
  rw [h2, hs]

/-- Witness for C1 on the fresh machine: `A` encodes to `F`, and `F` encodes
    back to `A` with the same end state. -/
theorem c1_self_reciprocity_witness :
    encode_sequence freshMachine ['F'] = .ok (['A'], freshMachine) :=
  c1_self_reciprocity freshMachine (Or.inl (by decide))
    (by
      intro r hr
      rcases (by simpa [freshMachine] using hr :
          r = mkRotor "I" 'A' 1 ∨ r = mkRotor "II" 'A' 1 ∨ r = mkRotor "III" 'A' 1) with
        rfl | rfl | rfl
      · exact ⟨"I", 'A', 1, by decide, by decide, rfl⟩
      · exact ⟨"II", 'A', 1, by decide, by decide, rfl⟩
      · exact ⟨"III", 'A', 1, by decide, by decide, rfl⟩)
    ⟨"B", by decide, rfl⟩
    ⟨by simp [freshMachine], by simp [freshMachine]⟩
    'A' 'F' (by decide) freshMachine (by decide)

/-- Every member of a `product(L, repeat=3)`-style list is a 3-element list. -/
theorem triple_shape (L : List String) :
    ∀ x ∈ (L.bind fun a => L.bind fun b => L.map fun c => [a, b, c]),
      ∃ a b c, x = [a, b, c] := by
  intro x hx
  simp only [List.mem_bind, List.mem_map] at hx
  obtain ⟨a, _, b, _, c, _, hx⟩ := hx
  exact ⟨a, b, c, hx.symm⟩

/-- Every candidate of `get_r3_combination` carries 3 ring settings and
    3 rotor types. -/
theorem r3_shape : ∀ combo ∈ r3Combinations,
    (∃ a b c, combo.1 = [a, b, c]) ∧ ∃ a b c, combo.2.1 = [a, b, c] := by
  intro combo hc
  simp only [r3Combinations, List.mem_bind, List.mem_map] at hc
  obtain ⟨rs, hrs, rot, hrot, rf, _, heq⟩ := hc
  subst heq
  exact ⟨triple_shape r3RingSettings rs hrs, triple_shape r3RotorTypes rot hrot⟩

/-- `setup_enigma` on a 3-name rotor list always succeeds, with a drum of
    exactly 3 rotors. -/
theorem setup_enigma_three (pb : Plugboard) (R : Reflector) (a b c : String)
    (positions : List Char) (rings : List String) :
    ∃ x y z : Rotor,
      setup_enigma pb R [a, b, c] positions rings = some ⟨pb, [x, y, z], R⟩ :=
  ⟨_, _, _, rfl⟩

/-- Encoding the empty string on any drum of at least 3 rotors succeeds and
    yields the empty string. -/
theorem encode_sequence_nil (pb : Plugboard) (R : Reflector) (x y z : Rotor)
    (rest : List Rotor) :
    ∃ m', encode_sequence ⟨pb, x :: y :: z :: rest, R⟩ [] = .ok ([], m') :=
  ⟨_, rfl⟩

/-- With an empty ciphertext and the non-empty crib `'X'`, every trial of
    `encode_part3` misses, so from any loop counter the search walks off the
    end of `r3_combinations` and raises `IndexError`. -/
theorem part3_exhausts :
    ∀ (k i : Nat), i + k = r3Combinations.length →
      ∀ (R : Reflector) (eng : EnigmaState),
        (∃ x y z rest, eng.drum = x :: y :: z :: rest) →
        part3_loop [] ['X'] r3Combinations c5_positions c5_plugboard R eng i =
          .error .indexError := by
  intro k
  have hnomatch : pyInStr ['X'] ([] : List Char) = false := rfl
  induction k with
  | zero =>
    intro i hi R eng hsh
    obtain ⟨x, y, z, rest, hdrum⟩ := hsh
    obtain ⟨pb', drum', R'⟩ := eng
    simp only at hdrum
    subst hdrum
    obtain ⟨m', henc⟩ := encode_sequence_nil pb' R' x y z rest
    have hg : r3Combinations.get? i = none := List.get?_eq_none.mpr (by omega)
    rw [part3_loop]
    split
    · rename_i e herr
      exact absurd (henc.symm.trans herr) (by simp)
    · rename_i cypher m2 hok
      rw [henc] at hok
      injection hok with hok
      have hcy : cypher = [] := by injection hok with h _; exact h.symm
      subst hcy
      rw [if_neg (by rw [hnomatch]; simp)]
      split
      · rfl
      · rename_i combo hsome
        exact absurd (hg.symm.trans hsome) (by simp)
  | succ k ih =>
    intro i hi R eng hsh
    obtain ⟨x, y, z, rest, hdrum⟩ := hsh
    obtain ⟨pb', drum', R'⟩ := eng
    simp only at hdrum
    subst hdrum
    obtain ⟨m', henc⟩ := encode_sequence_nil pb' R' x y z rest
    have hlt : i < r3Combinations.length := by omega
    obtain ⟨combo, hget⟩ : ∃ combo, r3Combinations.get? i = some combo :=
      ⟨_, List.get?_eq_get hlt⟩
    obtain ⟨_, ta, tb, tc, htshape⟩ := r3_shape combo (List.get?_mem hget)
    obtain ⟨x', y', z', hsetup⟩ := setup_enigma_three c5_plugboard
      (mkReflector combo.2.2) ta tb tc c5_positions combo.1
    have hsetup' : setup_enigma c5_plugboard (mkReflector combo.2.2) combo.2.1
        c5_positions combo.1 =
        some ⟨c5_plugboard, [x', y', z'], mkReflector combo.2.2⟩ := by
      rw [htshape]; exact hsetup
    have hguard : ¬ (i + 1 > r3Combinations.length) := by omega
    rw [part3_loop]
    split
    · rename_i e herr
      exact absurd (henc.symm.trans herr) (by simp)
    · rename_i cypher m2 hok
      rw [henc] at hok
      injection hok with hok
      have hcy : cypher = [] := by injection hok with h _; exact h.symm
      subst hcy
      rw [if_neg (by rw [hnomatch]; simp)]
      split
      · rename_i hnone
        exact absurd (hget.symm.trans hnone) (by simp)
      · rename_i combo2 hsome
        rw [hget] at hsome
        injection hsome with hsome
        subst hsome
        simp only [hsetup']
        rw [if_neg hguard]
        exact ih (i + 1) (by omega) (mkReflector combo.2.2) _ ⟨x', y', z', [], rfl⟩

/-- C5 (code bug): with the empty ciphertext and crib `'X'` — a search in
    which no candidate can ever match — `encode_part3` exhausts all
    candidates and raises `IndexError` at `r3_combinations[len]` instead of
    returning its (unreachable) `'Crib not found'` sentinel. -/
theorem c5_part3_exhaustion_raises :
    part3_loop [] ['X'] r3Combinations c5_positions c5_plugboard c5_reflector
      c5_engine 0 = .error .indexError :=
  part3_exhausts r3Combinations.length 0 (by omega) c5_reflector c5_engine
    ⟨_, _, _, [], rfl⟩
